import Mathlib

/-!
Verification development for the roosterjs editor core excerpt.

The TypeScript sources are shallowly embedded: the DOM subset the code
touches becomes an inductive tree, stateful editor code becomes explicit
state passing, and callbacks that may throw are deep-embedded commands
interpreted into `state × threw?` pairs.  Node references are modelled by
numeric ids (reference equality becomes id equality on well-formed trees
whose ids are distinct).
-/

namespace Rooster

/-- A DOM node: either a text node (id, character data) or an element
(id, tag name, children).  Only the shape used by the embedded code. -/
inductive DomNode where
  | text : Nat → String → DomNode
  | elem : Nat → String → List DomNode → DomNode

/-- The identity of a node; JS reference equality is modelled as id
equality over trees with pairwise distinct ids. -/
def DomNode.nodeId : DomNode → Nat
  | .text i _ => i
  | .elem i _ _ => i

/-- Character data length of a text node, child count of an element:
the DOM's maximal valid offset inside this node. -/
def maxOffsetOfNode : DomNode → Nat
  | .text _ d => d.length
  | .elem _ _ cs => cs.length

mutual

/-- Embeds `Node.contains(other)`: inclusive-descendant test (a node contains
itself). -/
def domContains : DomNode → DomNode → Bool
  | .text i _, n => i == n.nodeId
  | .elem i _ cs, n => i == n.nodeId || domContainsList cs n

/-- Helper: `domContains` mapped over a child list. -/
def domContainsList : List DomNode → DomNode → Bool
  | [], _ => false
  | c :: cs, n => domContains c n || domContainsList cs n

end

/-- BlockElement (`roosterjs-editor-dom` object model): a Node-block
anchored at one container node, or a Start-End block anchored at a
sibling pair. -/
inductive BlockElement where
  | nodeBlock : DomNode → BlockElement
  | startEndBlock : DomNode → DomNode → BlockElement

/-- Embeds `BlockElement.getStartNode()`. -/
def BlockElement.getStartNode : BlockElement → DomNode
  | .nodeBlock n => n
  | .startEndBlock s _ => s

/-- Embeds `BlockElement.getEndNode()`. -/
def BlockElement.getEndNode : BlockElement → DomNode
  | .nodeBlock n => n
  | .startEndBlock _ e => e

/-- Structural block equality: two blocks are equal iff their start and
end nodes match (reference equality on both nodes). -/
def BlockElement.equalsBlock (b1 b2 : BlockElement) : Bool :=
  b1.getStartNode.nodeId == b2.getStartNode.nodeId &&
    b1.getEndNode.nodeId == b2.getEndNode.nodeId

/-- InlineElement: one run of inline content, bounded inside a container
node by start/end offsets.  Only the identity of the value matters for
the scoper claims. -/
structure InlineElement where
  containerNode : DomNode
  startOffset : Nat
  endOffset : Nat

/-- BodyScoper (`scopers/BodyScoper.ts`): scoper over the entire editor
body, holding the root node. -/
structure BodyScoper where
  rootNode : DomNode

/-- Embeds `BodyScoper.isBlockInScope`: `this.rootNode.contains(blockElement.getStartNode())`. -/
def BodyScoper.isBlockInScope (sc : BodyScoper) (blockElement : BlockElement) : Bool :=
  domContains sc.rootNode blockElement.getStartNode

/-- Embeds `BodyScoper.trimInlineElement`: returns the inline element unchanged. -/
def BodyScoper.trimInlineElement (_sc : BodyScoper) (inlineElement : InlineElement) :
    InlineElement :=
  inlineElement

/-- Modelled from the spec: the block-level tag classification ("a fixed
set of tag/role predicates (paragraph-like, list-item, table-cell, div,
etc.)").  The `BlockScoper` implementation and the DOM classifier are not
part of the excerpt (only the `BlockScoper` tests are). -/
def isBlockTag (tag : String) : Bool :=
  tag == "P" || tag == "DIV" || tag == "LI" || tag == "TD" || tag == "TH" ||
    tag == "BLOCKQUOTE"

/-- Modelled from the spec: the block containing a given anchor node, for
a root whose block-level children sit directly under it — the scenario of
`<p>part1</p><p>part2</p>`.  Scans root's children for the block-level
child containing the anchor and wraps it as a Node-block. -/
def blockContainingNode (root : DomNode) (anchor : DomNode) : Option BlockElement :=
  match root with
  | .text _ _ => none
  | .elem _ _ cs =>
      (cs.find? fun c =>
          (match c with
            | .elem _ tag _ => isBlockTag tag
            | .text _ _ => false) &&
            domContains c anchor).map .nodeBlock

/-- Modelled from the spec: BlockScoper — "scope = the single block
containing a given start Position"; holds the root and the start block.
The implementation file is missing from the excerpt; only its unit tests
are present. -/
structure BlockScoper where
  rootNode : DomNode
  startBlockElement : BlockElement

/-- Modelled from the spec: "a block is in scope iff it equals the start
block", with the structural block equality of the data model. -/
def BlockScoper.isBlockInScope (sc : BlockScoper) (blockElement : BlockElement) : Bool :=
  blockElement.equalsBlock sc.startBlockElement

/-- Modelled from the spec: building a BlockScoper anchored at the
selection-start node — the start block is the block containing it. -/
def BlockScoper.createAt (root : DomNode) (anchor : DomNode) : Option BlockScoper :=
  (blockContainingNode root anchor).map fun b =>
    { rootNode := root, startBlockElement := b }

/-- The concrete tree for `<p>part1</p><p>part2</p>` under a root div.
Ids are pairwise distinct. -/
def part1Text : DomNode := .text 2 "part1"

def part2Text : DomNode := .text 4 "part2"

def part1Para : DomNode := .elem 1 "P" [part1Text]

def part2Para : DomNode := .elem 3 "P" [part2Text]

def twoParaRoot : DomNode := .elem 0 "DIV" [part1Para, part2Para]

/-- Position (`selection/Position.ts`): a (node, offset) coordinate. -/
structure Position where
  node : DomNode
  offset : Nat

/-- SelectionRange (`selection/SelectionRange.ts`), Position-pair
constructor: `end = end || start`, and
`collapsed = start.node == end.node && start.offset == end.offset`. -/
structure SelectionRange where
  start : Position
  endPos : Position
  collapsed : Bool

/-- The `constructor(start, end?)` Position-pair overload of
`SelectionRange`. -/
def SelectionRange.ofPositions (start : Position) (endArg : Option Position) :
    SelectionRange :=
  let e := endArg.getD start
  { start := start
    endPos := e
    collapsed := start.node.nodeId == e.node.nodeId && start.offset == e.offset }

/-- EditorPoint (`roosterjs-editor-types`): a container node (possibly
null) and an offset.  The offset is an integer, as in JS. -/
structure EditorPoint where
  containerNode : Option DomNode
  offset : Int

/-- Embeds `validateEditorPoint` (`format/keepSelection.ts`): clamps the
offset of an in-editor point to the node's maximal offset and accepts it
when the clamped offset is non-negative; rejects a null container or a
container outside the editor.  The JS function mutates `point.offset`;
the model returns the accepted flag together with the updated point. -/
def validateEditorPoint (editorRoot : DomNode) (point : EditorPoint) :
    Bool × EditorPoint :=
  match point.containerNode with
  | none => (false, point)
  | some n =>
      if domContains editorRoot n then
        let point :=
          match n with
          | .text _ d => { point with offset := min point.offset (Int.ofNat d.length) }
          | .elem _ _ cs => { point with offset := min point.offset (Int.ofNat cs.length) }
        (decide (point.offset ≥ 0), point)
      else
        (false, point)

/-- The guard of `keepSelection`: the normalized points are used to
restore the range only when a range exists and both points validate. -/
def keepSelectionUsesPoints (editorRoot : DomNode) (hasRange : Bool)
    (startPoint endPoint : EditorPoint) : Bool :=
  hasRange && (validateEditorPoint editorRoot startPoint).1 &&
    (validateEditorPoint editorRoot endPoint).1

/-- The plugin event kinds the embedded editor code dispatches. -/
inductive PluginEventType where
  | ContentChanged
  | EditorReady
  | BeforeDispose
deriving DecidableEq, Repr

/-- A dispatched plugin event, as handed to `triggerEvent`.  The
`suspendUndoAtDispatch` field records the value of `core.suspendUndo` at
the moment of dispatch: `triggerEvent` runs the plugin handlers
synchronously, so this is the flag value every handler observes. -/
structure PluginEventRec where
  eventType : PluginEventType
  source : String
  data : Option Nat
  suspendUndoAtDispatch : Bool
deriving DecidableEq, Repr

/-- The EditorCore state the undo-related code touches: the suppression
flag, the undo service's snapshot stack (snapshot ids, newest first, ids
drawn from `nextSnapId`), an abstract content version bumped by edits,
and the log of dispatched events (newest first). -/
structure EditorState where
  suspendUndo : Bool
  undoStack : List Nat
  nextSnapId : Nat
  content : Nat
  events : List PluginEventRec
deriving DecidableEq, Repr

/-- Embeds `core.undo.addUndoSnapshot()`: push a fresh snapshot id. -/
def pushSnapshot (s : EditorState) : EditorState :=
  { s with undoStack := s.nextSnapId :: s.undoStack, nextSnapId := s.nextSnapId + 1 }

/-- Embeds `core.api.triggerEvent(core, event, broadcast)` for the
ContentChanged event built in `runWithUndo`: appends the event to the
dispatch log, recording the current suppression flag as what the
synchronously invoked handlers observe. -/
def triggerContentChanged (changeSource : String) (getData : Option Nat)
    (s : EditorState) : EditorState :=
  { s with
      events :=
        { eventType := .ContentChanged
          source := changeSource
          data := getData
          suspendUndoAtDispatch := s.suspendUndo } :: s.events }

/-- Embeds `Editor.addUndoSnapshot()` (Editor.ts): push a snapshot only when
the suppression flag is clear. -/
def editorAddUndoSnapshot (s : EditorState) : EditorState :=
  if s.suspendUndo then s else pushSnapshot s

/-- Deep embedding of the callbacks passed to `runWithUndo`: no-op,
abstract content edit, a throw, sequencing, a guarded
`Editor.addUndoSnapshot` call, and a nested `runWithUndo` call — with a
callback (`runWithUndoCb`) or with a null callback (`runWithUndoNoCb`) —
carrying its own change source and data-callback result. -/
inductive Cb where
  | nop
  | edit
  | throwErr
  | seq : Cb → Cb → Cb
  | addSnapshot
  | runWithUndoNoCb : String → Option Nat → Cb
  | runWithUndoCb : Cb → String → Option Nat → Cb

/-- Interpreter for `Cb` over the editor state; the Bool is true when
the command raised an exception.  The `runWithUndoCb`/`runWithUndoNoCb`
cases are the translation of `coreAPI/runWithUndo.ts`: record
`isNested`, push the before-snapshot and set the flag when outermost,
run the callback (if any) inside `try`, then — still inside the `try`,
when the callback completed and the call is outermost — push the
after-snapshot and, for a non-empty change source, dispatch the
ContentChanged event; `finally` clears the flag iff this call set it,
and an exception from the callback propagates. -/
def runCb : Cb → EditorState → EditorState × Bool
  | .nop, s => (s, false)
  | .edit, s => ({ s with content := s.content + 1 }, false)
  | .throwErr, s => (s, true)
  | .seq a b, s =>
      match runCb a s with
      | (s1, true) => (s1, true)
      | (s1, false) => runCb b s1
  | .addSnapshot, s => (editorAddUndoSnapshot s, false)
  | .runWithUndoNoCb _changeSource _getData, s =>
      let isNested := s.suspendUndo
      let s1 := if isNested then s else { pushSnapshot s with suspendUndo := true }
      ((if isNested then s1 else { s1 with suspendUndo := false }), false)
  | .runWithUndoCb c changeSource getData, s =>
      let isNested := s.suspendUndo
      let s1 := if isNested then s else { pushSnapshot s with suspendUndo := true }
      match runCb c s1 with
      | (s2, true) =>
          ((if isNested then s2 else { s2 with suspendUndo := false }), true)
      | (s2, false) =>
          let s3 := if isNested then s2 else pushSnapshot s2
          let s4 :=
            if !isNested && !(changeSource == "") then
              triggerContentChanged changeSource getData s3
            else s3
          ((if isNested then s4 else { s4 with suspendUndo := false }), false)

/-- One `runWithUndo(core, callback, changeSource, getDataCallback)`
call with a nullable callback, as a `Cb` command. -/
def cbOfCall (callback : Option Cb) (changeSource : String)
    (getData : Option Nat) : Cb :=
  match callback with
  | none => .runWithUndoNoCb changeSource getData
  | some c => .runWithUndoCb c changeSource getData

/-- Runs `runWithUndo` as an entry point: run the embedded call on a state. -/
def runWithUndoOn (callback : Option Cb) (changeSource : String)
    (getData : Option Nat) (s : EditorState) : EditorState × Bool :=
  runCb (cbOfCall callback changeSource getData) s

/-- The state in which an outermost `runWithUndo` runs its callback:
before-snapshot pushed, suppression flag set. -/
def midState (s : EditorState) : EditorState :=
  { pushSnapshot s with suspendUndo := true }

/-- The deferred callback body registered by `Editor.runAsync`:
`if (!this.isDisposed() && callback) callback();` where
`isDisposed()` is `!this.core`.  `core` carries the editor core when the
editor is alive and is `none` after `dispose` nulled it; the callback's
effect is an arbitrary function on a world of type `α`. -/
def runAsyncFire (core : Option EditorState) (callback : Option (α → α))
    (w : α) : α :=
  if !core.isNone && callback.isSome then
    match callback with
    | some f => f w
    | none => w
  else w

/-- A teardown action registered with the editor (a plugin's `dispose`,
an entry of `eventDisposers`, or a customData disposer): its identity
and whether invoking it throws. -/
structure Disposer where
  ident : Nat
  throws : Bool
deriving DecidableEq, Repr

/-- Run a list of disposers the way `forEach` does with no try/catch:
invoke each in order, and stop right after the first one that throws.
Returns the identities actually invoked and whether a throw escaped. -/
def runDisposerList : List Disposer → List Nat × Bool
  | [] => ([], false)
  | d :: rest =>
      if d.throws then ([d.ident], true)
      else
        let r := runDisposerList rest
        (d.ident :: r.1, r.2)

/-- Embeds the `Editor.dispose()` teardown sequence (Editor.ts): dispose every
plugin, then invoke every entry of `eventDisposers`, then every
customData disposer — three sequential loops with no exception handling,
so a throw in one loop also skips the later loops. -/
def disposeRun (plugins eventDisposers customDataDisposers : List Disposer) :
    List Nat × Bool :=
  let p := runDisposerList plugins
  if p.2 then (p.1, true)
  else
    let e := runDisposerList eventDisposers
    if e.2 then (p.1 ++ e.1, true)
    else
      let c := runDisposerList customDataDisposers
      (p.1 ++ e.1 ++ c.1, c.2)

/-- The disposers a faultless teardown would invoke: everything up to
and including the first throwing disposer, everything when none throws. -/
def invokedUpToThrow (ds : List Disposer) : List Nat :=
  (ds.takeWhile (fun d => !d.throws) ++ (ds.dropWhile (fun d => !d.throws)).take 1).map
    (·.ident)

/-- A fresh editor state: nothing suspended, empty undo stack and logs. -/
def st0 : EditorState := ⟨false, [], 0, 0, []⟩

/-- An editor state observed during an outer `runWithUndo` callback: the
suppression flag is set. -/
def stSusp : EditorState := ⟨true, [], 0, 0, []⟩

/-
## Helper lemmas
-/

/-- While the suppression flag is set, no embedded command — edits,
guarded snapshot calls, or nested `runWithUndo` calls, throwing or not —
changes the flag, the undo stack, the snapshot counter, or the event
log. -/
theorem runCb_suspended (c : Cb) :
    ∀ s : EditorState, s.suspendUndo = true →
      (runCb c s).1.suspendUndo = true ∧
        (runCb c s).1.undoStack = s.undoStack ∧
        (runCb c s).1.nextSnapId = s.nextSnapId ∧
        (runCb c s).1.events = s.events := by
  induction c with
  | nop => exact fun s h => ⟨h, rfl, rfl, rfl⟩
  | edit => exact fun s h => ⟨h, rfl, rfl, rfl⟩
  | throwErr => exact fun s h => ⟨h, rfl, rfl, rfl⟩
  | seq a b iha ihb =>
      intro s h
      obtain ⟨ha1, ha2, ha3, ha4⟩ := iha s h
      simp only [runCb]
      cases hra : runCb a s with
      | mk s1 t =>
          rw [hra] at ha1 ha2 ha3 ha4
          cases t with
          | true => exact ⟨ha1, ha2, ha3, ha4⟩
          | false =>
              obtain ⟨hb1, hb2, hb3, hb4⟩ := ihb s1 ha1
              exact ⟨hb1, by rw [hb2, ha2], by rw [hb3, ha3], by rw [hb4, ha4]⟩
  | addSnapshot =>
      intro s h
      simp [runCb, editorAddUndoSnapshot, h]
  | runWithUndoNoCb cs gd =>
      intro s h
      simp [runCb, h]
  | runWithUndoCb c cs gd ih =>
      intro s h
      obtain ⟨h1, h2, h3, h4⟩ := ih s h
      simp only [runCb, h, if_true]
      cases hrc : runCb c s with
      | mk s2 t =>
          rw [hrc] at h1 h2 h3 h4
          cases t with
          | true => exact ⟨h1, h2, h3, h4⟩
          | false => exact ⟨h1, h2, h3, h4⟩

/-- An outermost `runWithUndo` call with a callback, unfolded: the
callback runs from `midState` (before-snapshot pushed, flag set); a
throw skips the after-snapshot and the event, and the flag is cleared on
both exit paths. -/
theorem runWithUndoCb_outermost (s : EditorState) (c : Cb) (cs : String)
    (gd : Option Nat) (h : s.suspendUndo = false) :
    runCb (.runWithUndoCb c cs gd) s =
      (match runCb c (midState s) with
       | (s2, true) => ({ s2 with suspendUndo := false }, true)
       | (s2, false) =>
           ({ (if !(cs == "") then
                 triggerContentChanged cs gd (pushSnapshot s2)
               else pushSnapshot s2) with suspendUndo := false }, false)) := by
  have h' : s = { s with suspendUndo := false } := by rw [← h]
  rw [h']
  rfl

/-- An outermost `runWithUndo` call with a null callback, unfolded: the
before-snapshot is pushed and the flag set, the `try` body does nothing,
and `finally` clears the flag. -/
theorem runWithUndoNoCb_outermost (s : EditorState) (cs : String)
    (gd : Option Nat) (h : s.suspendUndo = false) :
    runCb (.runWithUndoNoCb cs gd) s =
      ({ midState s with suspendUndo := false }, false) := by
  have h' : s = { s with suspendUndo := false } := by rw [← h]
  rw [h']
  rfl

/-- A `runWithUndo` call made while the suppression flag is set leaves
the undo stack unchanged: it adds neither a before- nor an
after-snapshot. -/
theorem runWithUndoOn_nested_stack (t : EditorState) (innerCb : Option Cb)
    (innerCs : String) (innerGd : Option Nat) (h : t.suspendUndo = true) :
    (runWithUndoOn innerCb innerCs innerGd t).1.undoStack = t.undoStack := by
  cases innerCb with
  | none => simp [runWithUndoOn, cbOfCall, runCb, h]
  | some c => exact (runCb_suspended (.runWithUndoCb c innerCs innerGd) t h).2.1

/-- A `runWithUndo` call made while the suppression flag is set
dispatches no event. -/
theorem runWithUndoOn_nested_events (t : EditorState) (innerCb : Option Cb)
    (innerCs : String) (innerGd : Option Nat) (h : t.suspendUndo = true) :
    (runWithUndoOn innerCb innerCs innerGd t).1.events = t.events := by
  cases innerCb with
  | none => simp [runWithUndoOn, cbOfCall, runCb, h]
  | some c => exact (runCb_suspended (.runWithUndoCb c innerCs innerGd) t h).2.2.2

/-- Events after an outermost call whose callback completed: exactly one
ContentChanged event is prepended when the change source is non-empty,
and it is dispatched while the suppression flag is still set. -/
theorem runWithUndoOn_outermost_done_events (s : EditorState) (c : Cb)
    (cs : String) (gd : Option Nat) (houter : s.suspendUndo = false)
    (hdone : (runCb c (midState s)).2 = false) :
    (runWithUndoOn (some c) cs gd s).1.events =
      if cs = "" then s.events
      else
        { eventType := .ContentChanged, source := cs, data := gd,
          suspendUndoAtDispatch := true } :: s.events := by
  obtain ⟨h1, h2, h3, h4⟩ := runCb_suspended c (midState s) rfl
  simp only [runWithUndoOn, cbOfCall]
  rw [runWithUndoCb_outermost s c cs gd houter]
  cases hrc : runCb c (midState s) with
  | mk s2 tb =>
      rw [hrc] at hdone h1 h2 h3 h4
      simp only at hdone
      subst hdone
      have h4' : s2.events = s.events := h4
      have h1' : s2.suspendUndo = true := h1
      by_cases hcs : cs = ""
      · simp [hcs, pushSnapshot, h4']
      · simp [hcs, triggerContentChanged, pushSnapshot, h1', h4']

/-- Events after an outermost call whose callback threw: unchanged. -/
theorem runWithUndoOn_outermost_threw_events (s : EditorState) (c : Cb)
    (cs : String) (gd : Option Nat) (houter : s.suspendUndo = false)
    (hthrew : (runCb c (midState s)).2 = true) :
    (runWithUndoOn (some c) cs gd s).1.events = s.events := by
  obtain ⟨h1, h2, h3, h4⟩ := runCb_suspended c (midState s) rfl
  simp only [runWithUndoOn, cbOfCall]
  rw [runWithUndoCb_outermost s c cs gd houter]
  cases hrc : runCb c (midState s) with
  | mk s2 tb =>
      rw [hrc] at hthrew h1 h2 h3 h4
      simp only at hthrew
      subst hthrew
      simpa [midState, pushSnapshot] using h4

/-
## Claims
-/

/-- C1: during an outermost `runWithUndo`'s callback the suppression
flag is set, so a nested `runWithUndo` invocation (any state `t` with
the flag set, any callback/source/data) adds neither a before- nor an
after-snapshot; the outermost invocation whose callback completes adds
exactly one new snapshot pair — the before-snapshot `s.nextSnapId` and
the after-snapshot `s.nextSnapId + 1` — so one compound edit produces
one undo step, not two. -/
theorem runWithUndo_nested_single_snapshot_pair
    (s t : EditorState) (c : Cb) (cs innerCs : String) (gd innerGd : Option Nat)
    (innerCb : Option Cb)
    (houter : s.suspendUndo = false)
    (hdone : (runCb c (midState s)).2 = false)
    (hnested : t.suspendUndo = true) :
    (midState s).suspendUndo = true ∧
    (runWithUndoOn innerCb innerCs innerGd t).1.undoStack = t.undoStack ∧
    (runWithUndoOn (some c) cs gd s).1.undoStack =
      (s.nextSnapId + 1) :: s.nextSnapId :: s.undoStack := by
  refine ⟨rfl, runWithUndoOn_nested_stack t innerCb innerCs innerGd hnested, ?_⟩
  obtain ⟨h1, h2, h3, h4⟩ := runCb_suspended c (midState s) rfl
  simp only [runWithUndoOn, cbOfCall]
  rw [runWithUndoCb_outermost s c cs gd houter]
  cases hrc : runCb c (midState s) with
  | mk s2 tb =>
      rw [hrc] at hdone h1 h2 h3 h4
      simp only at hdone
      subst hdone
      have h2' : s2.undoStack = s.nextSnapId :: s.undoStack := h2
      have h3' : s2.nextSnapId = s.nextSnapId + 1 := h3
      by_cases hcs : cs = ""
      · simp [hcs, pushSnapshot, h2', h3']
      · simp [hcs, triggerContentChanged, pushSnapshot, h2', h3']

/-- C1 witness: in a fresh editor, an outermost call whose callback is
itself a `runWithUndo` call ends with exactly the snapshot pair `[1, 0]`
on the stack, and a `runWithUndo` call at a suspended state adds
nothing. -/
theorem runWithUndo_nested_single_snapshot_pair_witness :
    st0.suspendUndo = false ∧
    (runCb (.runWithUndoCb .edit "inner" none) (midState st0)).2 = false ∧
    stSusp.suspendUndo = true ∧
    ((midState st0).suspendUndo = true ∧
      (runWithUndoOn (some .edit) "inner" none stSusp).1.undoStack =
        stSusp.undoStack ∧
      (runWithUndoOn (some (.runWithUndoCb .edit "inner" none)) "Format" none
            st0).1.undoStack =
        (st0.nextSnapId + 1) :: st0.nextSnapId :: st0.undoStack) :=
  ⟨rfl, by decide, rfl,
    runWithUndo_nested_single_snapshot_pair st0 stSusp
      (.runWithUndoCb .edit "inner" none) "Format" "inner" none none (some .edit)
      rfl (by decide) rfl⟩

/-- C2: when an outermost `runWithUndo`'s callback throws, the exception
propagates, the suppression flag is nevertheless cleared on exit, the
before-snapshot pushed before the callback is retained as the only new
stack entry, and no after-snapshot and no content-changed notification
are produced. -/
theorem runWithUndo_callback_exception
    (s : EditorState) (c : Cb) (cs : String) (gd : Option Nat)
    (houter : s.suspendUndo = false)
    (hthrew : (runCb c (midState s)).2 = true) :
    (runWithUndoOn (some c) cs gd s).2 = true ∧
    (runWithUndoOn (some c) cs gd s).1.suspendUndo = false ∧
    (runWithUndoOn (some c) cs gd s).1.undoStack =
      s.nextSnapId :: s.undoStack ∧
    (runWithUndoOn (some c) cs gd s).1.events = s.events := by
  obtain ⟨h1, h2, h3, h4⟩ := runCb_suspended c (midState s) rfl
  simp only [runWithUndoOn, cbOfCall]
  rw [runWithUndoCb_outermost s c cs gd houter]
  cases hrc : runCb c (midState s) with
  | mk s2 tb =>
      rw [hrc] at hthrew h1 h2 h3 h4
      simp only at hthrew
      subst hthrew
      have h2' : s2.undoStack = s.nextSnapId :: s.undoStack := h2
      have h4' : s2.events = s.events := h4
      exact ⟨rfl, rfl, h2', h4'⟩

/-- C2 witness: a throwing callback in a fresh editor propagates the
exception, clears the flag, keeps the before-snapshot `[0]`, and fires
no event. -/
theorem runWithUndo_callback_exception_witness :
    st0.suspendUndo = false ∧
    (runCb .throwErr (midState st0)).2 = true ∧
    ((runWithUndoOn (some .throwErr) "Format" none st0).2 = true ∧
      (runWithUndoOn (some .throwErr) "Format" none st0).1.suspendUndo = false ∧
      (runWithUndoOn (some .throwErr) "Format" none st0).1.undoStack =
        st0.nextSnapId :: st0.undoStack ∧
      (runWithUndoOn (some .throwErr) "Format" none st0).1.events =
        st0.events) :=
  ⟨rfl, by decide,
    runWithUndo_callback_exception st0 .throwErr "Format" none rfl (by decide)⟩

/-- C4: a `runWithUndo` invocation fires a content-changed notification
if and only if it is outermost (flag clear on entry), the callback is
present and completed, and the change source is non-empty; the fired
event carries eventType ContentChanged, the given change source, and the
data-callback result. -/
theorem runWithUndo_event_characterization (s : EditorState)
    (callback : Option Cb) (cs : String) (gd : Option Nat) :
    (runWithUndoOn callback cs gd s).1.events =
      (match callback with
       | none => s.events
       | some c =>
           if s.suspendUndo = false ∧ (runCb c (midState s)).2 = false ∧
               ¬(cs = "") then
             { eventType := .ContentChanged, source := cs, data := gd,
               suspendUndoAtDispatch := true } :: s.events
           else s.events) := by
  cases callback with
  | none =>
      cases hsusp : s.suspendUndo with
      | true => exact runWithUndoOn_nested_events s none cs gd hsusp
      | false =>
          simp only [runWithUndoOn, cbOfCall]
          rw [runWithUndoNoCb_outermost s cs gd hsusp]
          rfl
  | some c =>
      cases hsusp : s.suspendUndo with
      | true =>
          rw [runWithUndoOn_nested_events s (some c) cs gd hsusp]
          simp [hsusp]
      | false =>
          cases hdone : (runCb c (midState s)).2 with
          | true =>
              rw [runWithUndoOn_outermost_threw_events s c cs gd hsusp hdone]
              simp [hdone]
          | false =>
              rw [runWithUndoOn_outermost_done_events s c cs gd hsusp hdone]
              by_cases hcs : cs = "" <;> simp [hcs, hdone]

/-- C10: the content-changed notification of an outermost `runWithUndo`
is dispatched while the suppression flag is still set
(`suspendUndoAtDispatch = true`: `triggerEvent` runs inside the `try`
block, before `finally` clears `core.suspendUndo`), so a handler that
calls `Editor.addUndoSnapshot` — or a nested `runWithUndo` — at the
dispatch-time state adds no snapshot to the undo stack. -/
theorem runWithUndo_notification_under_suppression
    (s t : EditorState) (c : Cb) (cs : String) (gd : Option Nat)
    (innerCb : Option Cb) (innerCs : String) (innerGd : Option Nat)
    (houter : s.suspendUndo = false)
    (hdone : (runCb c (midState s)).2 = false)
    (hsource : ¬(cs = ""))
    (hsusp : t.suspendUndo = true) :
    (runWithUndoOn (some c) cs gd s).1.events =
      { eventType := .ContentChanged, source := cs, data := gd,
        suspendUndoAtDispatch := true } :: s.events ∧
    editorAddUndoSnapshot t = t ∧
    (runWithUndoOn innerCb innerCs innerGd t).1.undoStack = t.undoStack := by
  refine ⟨?_, ?_, runWithUndoOn_nested_stack t innerCb innerCs innerGd hsusp⟩
  · rw [runWithUndoOn_outermost_done_events s c cs gd houter hdone, if_neg hsource]
  · simp [editorAddUndoSnapshot, hsusp]

/-- C10 witness: a completing callback with source "Format" in a fresh
editor dispatches the event with the flag recorded as set, and both
`Editor.addUndoSnapshot` and a nested `runWithUndo` at a suspended state
leave the stack untouched. -/
theorem runWithUndo_notification_under_suppression_witness :
    st0.suspendUndo = false ∧
    (runCb .edit (midState st0)).2 = false ∧
    ¬(("Format" : String) = "") ∧
    stSusp.suspendUndo = true ∧
    ((runWithUndoOn (some .edit) "Format" (some 7) st0).1.events =
        { eventType := .ContentChanged, source := "Format", data := some 7,
          suspendUndoAtDispatch := true } :: st0.events ∧
      editorAddUndoSnapshot stSusp = stSusp ∧
      (runWithUndoOn (some .addSnapshot) "x" none stSusp).1.undoStack =
        stSusp.undoStack) :=
  ⟨rfl, by decide, by decide, rfl,
    runWithUndo_notification_under_suppression st0 stSusp .edit "Format" (some 7)
      (some .addSnapshot) "x" none rfl (by decide) (by decide) rfl⟩

/-- C5: a deferred `runAsync` callback firing after the editor was
disposed (`core` nulled) is a silent no-op: the callback body never
executes, whatever the callback is, and the world is untouched. -/
theorem runAsync_after_dispose_noop {α : Type} (callback : Option (α → α))
    (w : α) : runAsyncFire (none : Option EditorState) callback w = w := by
  simp [runAsyncFire]

/-- C6: for a `BodyScoper` over root `r`, every block whose start node
is contained under `r` is in scope, and inline trimming is the identity
on every inline element. -/
theorem bodyScoper_every_block_in_scope_trim_id (r : DomNode)
    (b : BlockElement) (i : InlineElement)
    (h : domContains r b.getStartNode = true) :
    (BodyScoper.mk r).isBlockInScope b = true ∧
    (BodyScoper.mk r).trimInlineElement i = i :=
  ⟨h, rfl⟩

/-- C6 witness: the "part1" paragraph block of the concrete two-paragraph
tree is under the root, so it is in scope, and its text run is trimmed
to itself. -/
theorem bodyScoper_every_block_in_scope_trim_id_witness :
    domContains twoParaRoot (BlockElement.nodeBlock part1Para).getStartNode =
      true ∧
    ((BodyScoper.mk twoParaRoot).isBlockInScope (.nodeBlock part1Para) = true ∧
      (BodyScoper.mk twoParaRoot).trimInlineElement ⟨part1Text, 0, 5⟩ =
        ⟨part1Text, 0, 5⟩) :=
  ⟨by decide,
    bodyScoper_every_block_in_scope_trim_id twoParaRoot (.nodeBlock part1Para)
      ⟨part1Text, 0, 5⟩ (by decide)⟩

/-- C7: for a BlockScoper anchored at the selection start inside
`<p>part1</p><p>part2</p>`, `isBlockInScope` is true for the "part1"
paragraph block and false for the "part2" paragraph block: a block is in
scope exactly when it equals the scoper's start block. -/
theorem blockScoper_part1_in_scope_part2_not :
    (BlockScoper.createAt twoParaRoot part1Text).map
        (fun sc =>
          (sc.isBlockInScope (.nodeBlock part1Para),
            sc.isBlockInScope (.nodeBlock part2Para))) =
      some (true, false) := by
  decide

/-- C9: a `SelectionRange` built from two Positions is collapsed iff the
Positions agree on container node and offset; built from a single
Position, its end equals its start and it is collapsed. -/
theorem selectionRange_collapsed_iff (p q : Position) :
    ((SelectionRange.ofPositions p (some q)).collapsed = true ↔
      p.node.nodeId = q.node.nodeId ∧ p.offset = q.offset) ∧
    (SelectionRange.ofPositions p none).endPos = p ∧
    (SelectionRange.ofPositions p none).collapsed = true := by
  refine ⟨?_, rfl, ?_⟩
  · simp [SelectionRange.ofPositions]
  · simp [SelectionRange.ofPositions]

/-- C8: an editor point accepted by `validateEditorPoint` ends with its
offset in `[0, maxOffsetOfNode]` of its container (text length for text
nodes, child count for elements); a point whose container lies outside
the editor is rejected, and `keepSelection` then does not use the points
to restore the range. -/
theorem validateEditorPoint_accepted_in_bounds (root : DomNode)
    (p q : EditorPoint) (n m : DomNode)
    (hp : p.containerNode = some n)
    (hacc : (validateEditorPoint root p).1 = true)
    (hq : q.containerNode = some m)
    (hout : domContains root m = false) :
    0 ≤ (validateEditorPoint root p).2.offset ∧
    (validateEditorPoint root p).2.offset ≤ (maxOffsetOfNode n : Int) ∧
    (validateEditorPoint root p).2.containerNode = p.containerNode ∧
    (validateEditorPoint root q).1 = false ∧
    keepSelectionUsesPoints root true q p = false := by
  have hqfalse : (validateEditorPoint root q).1 = false := by
    simp [validateEditorPoint, hq, hout]
  refine ⟨?_, ?_, ?_, hqfalse, ?_⟩
  · simp only [validateEditorPoint, hp] at hacc ⊢
    cases hin : domContains root n with
    | false => rw [hin] at hacc; simp at hacc
    | true =>
        rw [hin] at hacc
        cases n with
        | text i d => simpa using of_decide_eq_true hacc
        | elem i tag cs => simpa using of_decide_eq_true hacc
  · simp only [validateEditorPoint, hp] at hacc ⊢
    cases hin : domContains root n with
    | false => rw [hin] at hacc; simp at hacc
    | true =>
        rw [hin] at hacc
        cases n with
        | text i d => simp [maxOffsetOfNode, min_le_right]
        | elem i tag cs => simp [maxOffsetOfNode, min_le_right]
  · simp only [validateEditorPoint, hp] at hacc ⊢
    cases hin : domContains root n with
    | false => rw [hin] at hacc; simp at hacc
    | true => cases n <;> simp
  · simp [keepSelectionUsesPoints, hqfalse]

/-- C8 witness: the point (text "part1", offset 9) inside the editor is
accepted and clamped into bounds; a point in a text node with a foreign
id is outside the editor and rejected, and the pair is not used to
restore the range. -/
theorem validateEditorPoint_accepted_in_bounds_witness :
    (EditorPoint.mk (some part1Text) 9).containerNode = some part1Text ∧
    (validateEditorPoint twoParaRoot ⟨some part1Text, 9⟩).1 = true ∧
    (EditorPoint.mk (some (.text 99 "zz")) 1).containerNode =
      some (.text 99 "zz") ∧
    domContains twoParaRoot (.text 99 "zz") = false ∧
    (0 ≤ (validateEditorPoint twoParaRoot ⟨some part1Text, 9⟩).2.offset ∧
      (validateEditorPoint twoParaRoot ⟨some part1Text, 9⟩).2.offset ≤
        (maxOffsetOfNode part1Text : Int) ∧
      (validateEditorPoint twoParaRoot ⟨some part1Text, 9⟩).2.containerNode =
        (EditorPoint.mk (some part1Text) 9).containerNode ∧
      (validateEditorPoint twoParaRoot ⟨some (.text 99 "zz"), 1⟩).1 = false ∧
      keepSelectionUsesPoints twoParaRoot true ⟨some (.text 99 "zz"), 1⟩
          ⟨some part1Text, 9⟩ =
        false) :=
  ⟨rfl, by decide, rfl, by decide,
    validateEditorPoint_accepted_in_bounds twoParaRoot ⟨some part1Text, 9⟩
      ⟨some (.text 99 "zz"), 1⟩ part1Text (.text 99 "zz") rfl (by decide) rfl
      (by decide)⟩

/-- Lemma: `runDisposerList` is the invoked-up-to-first-throw policy, and a
throw escapes exactly when some disposer in the list throws. -/
theorem runDisposerList_eq (ds : List Disposer) :
    runDisposerList ds = (invokedUpToThrow ds, ds.any (·.throws)) := by
  induction ds with
  | nil => rfl
  | cons d rest ih =>
      cases hd : d.throws with
      | true => simp [runDisposerList, invokedUpToThrow, hd]
      | false =>
          simp [runDisposerList, invokedUpToThrow, hd, ih, List.takeWhile_cons,
            List.dropWhile_cons]

/-- Appending after a list that contains a throwing disposer does not
change what gets invoked. -/
theorem invokedUpToThrow_append_of_any (xs ys : List Disposer)
    (h : xs.any (·.throws) = true) :
    invokedUpToThrow (xs ++ ys) = invokedUpToThrow xs := by
  induction xs with
  | nil => simp at h
  | cons d rest ih =>
      cases hd : d.throws with
      | true => simp [invokedUpToThrow, hd]
      | false =>
          simp only [List.any_cons, hd, Bool.false_or] at h
          simp only [invokedUpToThrow, hd, List.takeWhile_cons, List.dropWhile_cons,
            Bool.not_false, if_true, List.map_cons, List.cons_append]
          simpa [invokedUpToThrow] using ih h

/-- If nothing in the first list throws, invocation runs through it and
continues into the second list. -/
theorem invokedUpToThrow_append_of_none (xs ys : List Disposer)
    (h : xs.any (·.throws) = false) :
    invokedUpToThrow (xs ++ ys) =
      xs.map (·.ident) ++ invokedUpToThrow ys := by
  induction xs with
  | nil => simp
  | cons d rest ih =>
      cases hd : d.throws with
      | true => simp [List.any_cons, hd] at h
      | false =>
          simp only [List.any_cons, hd, Bool.false_or] at h
          simp only [invokedUpToThrow, hd, List.takeWhile_cons, List.dropWhile_cons,
            Bool.not_false, if_true, List.map_cons, List.cons_append]
          simpa [invokedUpToThrow] using ih h

/-- When no disposer in a list throws, all of them get invoked. -/
theorem invokedUpToThrow_of_none (xs : List Disposer)
    (h : xs.any (·.throws) = false) :
    invokedUpToThrow xs = xs.map (·.ident) := by
  induction xs with
  | nil => rfl
  | cons d rest ih =>
      cases hd : d.throws with
      | true => simp [List.any_cons, hd] at h
      | false =>
          simp only [List.any_cons, hd, Bool.false_or] at h
          simp only [invokedUpToThrow, hd, List.takeWhile_cons, List.dropWhile_cons,
            Bool.not_false, if_true, List.map_cons, List.cons_append]
          simpa [invokedUpToThrow] using ih h

/-- C3 counterexample: with no plugins, two registered event disposers
of which the first throws, and no customData, `Editor.dispose` invokes
only disposer 0 — the registered non-throwing disposer 1 is never
invoked, and the exception escapes.  A throw from one disposer does
prevent the remaining disposers from being invoked. -/
theorem dispose_throw_skips_rest :
    disposeRun [] [⟨0, true⟩, ⟨1, false⟩] [] = ([0], true) := by
  decide

/-- C3 amended: `Editor.dispose` invokes the teardown actions — plugin
disposers, then event disposers, then customData disposers — strictly in
order up to and including the first one that throws (all of them when
none throws), and an exception escapes iff some disposer throws; the
actions after a throwing one are not invoked. -/
theorem dispose_invokes_up_to_first_throw
    (plugins eventDisposers customDataDisposers : List Disposer) :
    (disposeRun plugins eventDisposers customDataDisposers).1 =
      invokedUpToThrow (plugins ++ eventDisposers ++ customDataDisposers) ∧
    (disposeRun plugins eventDisposers customDataDisposers).2 =
      (plugins ++ eventDisposers ++ customDataDisposers).any (·.throws) := by
  simp only [disposeRun, runDisposerList_eq]
  cases hp : plugins.any (·.throws) with
  | true =>
      simp only [if_true]
      constructor
      · conv_rhs => rw [List.append_assoc]
        rw [invokedUpToThrow_append_of_any _ _ hp]
      · simp [List.any_append, hp]
  | false =>
      simp only [Bool.false_eq_true, if_false]
      cases he : eventDisposers.any (·.throws) with
      | true =>
          simp only [if_true]
          constructor
          · conv_rhs => rw [List.append_assoc]
            rw [invokedUpToThrow_append_of_none _ _ hp,
              invokedUpToThrow_append_of_any _ _ he,
              invokedUpToThrow_of_none _ hp]
          · simp [List.any_append, hp, he]
      | false =>
          simp only [Bool.false_eq_true, if_false]
          constructor
          · conv_rhs => rw [List.append_assoc]
            rw [invokedUpToThrow_append_of_none _ _ hp,
              invokedUpToThrow_append_of_none _ _ he,
              invokedUpToThrow_of_none _ hp, invokedUpToThrow_of_none _ he]
            simp
          · simp [List.any_append, hp, he]

end Rooster
